import Mathlib

/-!
Verification of the proxygen HTTP Transaction core (HTTPTransaction.h,
HTTPTransactionIngressSM.h) against its natural-language specification.

The data model and operations below are shallow embeddings of the C++
source.  Pure member functions become Lean functions on explicit record
states; CHECK failures and other fatal paths become error results.
Machine integers are modelled as Nat with the bounds the source enforces
made explicit; `double` fields are modelled as rationals.
-/

namespace Proxygen

/-- TransportDirection: the fixed direction of a transaction. -/
inductive TransportDirection
  | UPSTREAM
  | DOWNSTREAM
deriving DecidableEq, Repr

/-- HTTPTransactionIngressSMData::State (HTTPTransactionIngressSM.h). -/
inductive IngressState
  | Start
  | HeadersReceived
  | RegularBodyReceived
  | ChunkHeaderReceived
  | ChunkBodyReceived
  | ChunkCompleted
  | TrailersReceived
  | UpgradeComplete
  | EOMQueued
  | ReceivingDone
deriving DecidableEq, Repr

/-- The full enumeration of ingress states (the `NumStates` bound in the
source marks the end of the enum). -/
def allIngressStates : List IngressState :=
  [.Start, .HeadersReceived, .RegularBodyReceived, .ChunkHeaderReceived,
   .ChunkBodyReceived, .ChunkCompleted, .TrailersReceived, .UpgradeComplete,
   .EOMQueued, .ReceivingDone]

/-- HTTPTransactionIngressSMData::Event (HTTPTransactionIngressSM.h). -/
inductive IngressEvent
  | onHeaders
  | onBody
  | onChunkHeader
  | onChunkComplete
  | onTrailers
  | onUpgrade
  | onEOM
  | eomFlushed
deriving DecidableEq, Repr

/-- Modelled from the spec: the ingress state-machine transition table.
The implementation of `HTTPTransactionIngressSMData::find` lives in
HTTPTransactionIngressSM.cpp, which is not part of the sources here; the
entries follow spec section 4.1: `onHeaders` only from Start; from
HeadersReceived body/chunk-header/trailers/upgrade/EOM; the chunk cycle
ChunkHeaderReceived -onBody-> ChunkBodyReceived -onChunkComplete->
ChunkCompleted, which `onChunkHeader` reopens or `onTrailers`/`onEOM`
closes; `onEOM` accepted from any non-terminal post-headers state; and
`eomFlushed` moving EOMQueued to the terminal ReceivingDone.  Unlisted
pairs are rejected (`none`). -/
def ingressTableEntry : IngressState → IngressEvent → Option IngressState
  | .Start, .onHeaders => some .HeadersReceived
  | .HeadersReceived, .onBody => some .RegularBodyReceived
  | .HeadersReceived, .onChunkHeader => some .ChunkHeaderReceived
  | .HeadersReceived, .onTrailers => some .TrailersReceived
  | .HeadersReceived, .onUpgrade => some .UpgradeComplete
  | .HeadersReceived, .onEOM => some .EOMQueued
  | .RegularBodyReceived, .onBody => some .RegularBodyReceived
  | .RegularBodyReceived, .onEOM => some .EOMQueued
  | .ChunkHeaderReceived, .onBody => some .ChunkBodyReceived
  | .ChunkHeaderReceived, .onEOM => some .EOMQueued
  | .ChunkBodyReceived, .onBody => some .ChunkBodyReceived
  | .ChunkBodyReceived, .onChunkComplete => some .ChunkCompleted
  | .ChunkBodyReceived, .onEOM => some .EOMQueued
  | .ChunkCompleted, .onChunkHeader => some .ChunkHeaderReceived
  | .ChunkCompleted, .onTrailers => some .TrailersReceived
  | .ChunkCompleted, .onEOM => some .EOMQueued
  | .TrailersReceived, .onEOM => some .EOMQueued
  | .UpgradeComplete, .onBody => some .UpgradeComplete
  | .UpgradeComplete, .onEOM => some .EOMQueued
  | .EOMQueued, .eomFlushed => some .ReceivingDone
  | _, _ => none

/-- Modelled from the spec: `HTTPTransactionIngressSMData::find` (declared
in HTTPTransactionIngressSM.h, implemented in the absent .cpp).  Looks up
the `(state, event)` pair in the table; on a miss it returns the current
state paired with `false` (the event is rejected and does not move the
machine). -/
def ingressFind (s : IngressState) (e : IngressEvent) : IngressState × Bool :=
  match ingressTableEntry s e with
  | some s2 => (s2, true)
  | none => (s, false)

/-- Error codes relevant to the modelled fragment (ErrorCode enum). -/
inductive ErrorCode
  | NO_ERROR
  | PROTOCOL_ERROR
  | INTERNAL_ERROR
  | CANCEL
deriving DecidableEq, Repr

/-- The ingress-side fragment of HTTPTransaction state touched by
`validateIngressStateTransition`: the ingress SM state and the trace of
aborts sent to the transport. -/
structure IngressTxn where
  ingressState : IngressState
  abortsSent : List ErrorCode
deriving DecidableEq, Repr

/-- Modelled from the spec: `HTTPTransaction::validateIngressStateTransition`
(declared at HTTPTransaction.h with the contract "Returns false and sends an
abort with PROTOCOL_ERROR if the transition fails.  Otherwise it returns
true"; the body is in the absent HTTPTransaction.cpp).  On an accepted
transition the ingress state advances; on a rejected one the state is left
untouched and an abort carrying PROTOCOL_ERROR is sent. -/
def validateIngressStateTransition (t : IngressTxn) (e : IngressEvent) :
    Bool × IngressTxn :=
  match ingressTableEntry t.ingressState e with
  | some s2 => (true, { t with ingressState := s2 })
  | none => (false, { t with abortsSent := t.abortsSent ++ [.PROTOCOL_ERROR] })

/-- Claim C1: applying an ingress event whose `(state, event)` pair has no
entry in the state-machine table is rejected: `validateIngressStateTransition`
returns false, an abort with PROTOCOL_ERROR is sent, the ingress state is
unchanged, and in every case the resulting state stays inside the defined
enumeration of ingress states. -/
theorem ingress_rejected_event_protocol_error_state_unchanged
    (t : IngressTxn) (e : IngressEvent)
    (hrej : (ingressFind t.ingressState e).2 = false) :
    (validateIngressStateTransition t e).1 = false ∧
    (validateIngressStateTransition t e).2.ingressState = t.ingressState ∧
    (validateIngressStateTransition t e).2.abortsSent =
      t.abortsSent ++ [ErrorCode.PROTOCOL_ERROR] ∧
    ∀ t2 e2, (validateIngressStateTransition t2 e2).2.ingressState ∈
      allIngressStates := by
  have hnone : ingressTableEntry t.ingressState e = none := by
    unfold ingressFind at hrej
    cases h : ingressTableEntry t.ingressState e with
    | none => rfl
    | some s2 => rw [h] at hrej; simp at hrej
  refine ⟨?_, ?_, ?_, ?_⟩
  · unfold validateIngressStateTransition
    rw [hnone]
  · unfold validateIngressStateTransition
    rw [hnone]
  · unfold validateIngressStateTransition
    rw [hnone]
  · intro t2 e2
    unfold validateIngressStateTransition
    cases h : ingressTableEntry t2.ingressState e2 with
    | none =>
      simp only []
      cases t2 with
      | mk s aborts => cases s <;> simp [allIngressStates]
    | some s2 =>
      simp only []
      cases s2 <;> simp [allIngressStates]

/-- Witness for C1: the concrete pair (Start, onBody) is rejected (body
before headers), the abort is PROTOCOL_ERROR and the state stays Start. -/
theorem ingress_rejected_event_witness :
    (ingressFind IngressState.Start IngressEvent.onBody).2 = false ∧
    (validateIngressStateTransition ⟨.Start, []⟩ .onBody).1 = false ∧
    (validateIngressStateTransition ⟨.Start, []⟩ .onBody).2.ingressState =
      IngressState.Start := by
  refine ⟨by decide, ?_, ?_⟩
  · exact (ingress_rejected_event_protocol_error_state_unchanged
      ⟨.Start, []⟩ .onBody (by decide)).1
  · exact (ingress_rejected_event_protocol_error_state_unchanged
      ⟨.Start, []⟩ .onBody (by decide)).2.1

/-- HTTPException::Direction: which side of the transaction an error is
tagged with. -/
inductive HTTPExceptionDirection
  | INGRESS
  | EGRESS
deriving DecidableEq, Repr

/-- HTTPCodec::ExAttributes: control-stream binding of an extended
transaction. -/
structure ExAttributes where
  controlStream : Nat
  unidirectional : Bool
deriving DecidableEq, Repr

/-- The identity fragment of HTTPTransaction used by isRemoteInitiated,
isExTransaction, isUnidirectional and shouldNotifyExTxnError: the fixed
direction, the stream id, and the optional EX attributes. -/
structure TxnIdent where
  direction : TransportDirection
  id : Nat
  exAttributes : Option ExAttributes
deriving DecidableEq, Repr

/-- HTTPTransaction::isRemoteInitiated: remote initiation is decoded from
the parity of the stream id relative to the transaction direction. -/
def isRemoteInitiated (t : TxnIdent) : Bool :=
  (t.direction == TransportDirection.DOWNSTREAM && t.id % 2 == 1) ||
  (t.direction == TransportDirection.UPSTREAM && t.id % 2 == 0)

/-- HTTPTransaction::isExTransaction: the transaction carries EX
attributes. -/
def isExTransaction (t : TxnIdent) : Bool :=
  t.exAttributes.isSome

/-- HTTPTransaction::isUnidirectional: an EX transaction whose attributes
carry the unidirectional flag. -/
def isUnidirectional (t : TxnIdent) : Bool :=
  match t.exAttributes with
  | some attrs => attrs.unidirectional
  | none => false

/-- HTTPTransaction::shouldNotifyExTxnError: for a unidirectional EX
transaction, surface EGRESS errors when remotely initiated and INGRESS
errors otherwise; all other transactions never notify. -/
def shouldNotifyExTxnError (t : TxnIdent)
    (errorDirection : HTTPExceptionDirection) : Bool :=
  if isUnidirectional t then
    if isRemoteInitiated t then
      errorDirection == HTTPExceptionDirection.EGRESS
    else
      errorDirection == HTTPExceptionDirection.INGRESS
  else
    false

/-- The active direction of a unidirectional EX transaction: EGRESS when
remotely initiated (its egress side is pre-marked terminal, so egress
errors are the ones it cares about), INGRESS when locally initiated. -/
def activeExDirection (t : TxnIdent) : HTTPExceptionDirection :=
  if isRemoteInitiated t then .EGRESS else .INGRESS

/-- Claim C6: isRemoteInitiated() returns true exactly when the direction
is DOWNSTREAM and the stream id is odd, or the direction is UPSTREAM and
the stream id is even. -/
theorem isRemoteInitiated_iff_parity (t : TxnIdent) :
    isRemoteInitiated t = true ↔
      ((t.direction = TransportDirection.DOWNSTREAM ∧ t.id % 2 = 1) ∨
       (t.direction = TransportDirection.UPSTREAM ∧ t.id % 2 = 0)) := by
  unfold isRemoteInitiated
  cases t.direction <;> simp [Nat.mod_two_eq_zero_or_one]

/-- Claim C5: shouldNotifyExTxnError returns true exactly when the
transaction is unidirectional and the error direction equals its active
direction (EGRESS when remotely initiated, INGRESS when locally
initiated); in particular a non-unidirectional transaction returns false
for both directions. -/
theorem shouldNotifyExTxnError_direction_filter (t : TxnIdent)
    (d : HTTPExceptionDirection) :
    (shouldNotifyExTxnError t d = true ↔
      (isUnidirectional t = true ∧ d = activeExDirection t)) ∧
    (isUnidirectional t = false →
      shouldNotifyExTxnError t .INGRESS = false ∧
      shouldNotifyExTxnError t .EGRESS = false) := by
  constructor
  · unfold shouldNotifyExTxnError activeExDirection
    cases h : isUnidirectional t with
    | false => simp
    | true =>
      cases hr : isRemoteInitiated t with
      | false => cases d <;> simp
      | true => cases d <;> simp
  · intro h
    unfold shouldNotifyExTxnError
    rw [h]
    simp

/-- Witness for C5 at a concrete unidirectional, remotely initiated
downstream transaction (id 1): an EGRESS error is notified. -/
theorem shouldNotifyExTxnError_witness :
    shouldNotifyExTxnError
      ⟨TransportDirection.DOWNSTREAM, 1, some ⟨3, true⟩⟩ .EGRESS = true ∧
    shouldNotifyExTxnError
      ⟨TransportDirection.DOWNSTREAM, 1, some ⟨3, true⟩⟩ .INGRESS = false := by
  constructor
  · exact (shouldNotifyExTxnError_direction_filter
      ⟨TransportDirection.DOWNSTREAM, 1, some ⟨3, true⟩⟩ .EGRESS).1.mpr
      (by decide)
  · decide

/-- HTTPTransaction::incrementPendingByteEvents: CHECK_LT against the
uint8_t maximum (255) and then increment; a CHECK failure is fatal,
modelled as `none`. -/
def incrementPendingByteEvents (c : Nat) : Option Nat :=
  if c < 255 then some (c + 1) else none

/-- HTTPTransaction::decrementPendingByteEvents: CHECK_GT against 0 and
then decrement; a CHECK failure is fatal, modelled as `none`. -/
def decrementPendingByteEvents (c : Nat) : Option Nat :=
  if 0 < c then some (c - 1) else none

/-- Claim C9: the pending-byte-events counter stays in [0, 255] (it is an
8-bit unsigned field): increment succeeds only strictly below 255 and
keeps the result at most 255, so at most 255 delivery-tracking events can
be outstanding; decrement succeeds only on a strictly positive counter and
never underflows. -/
theorem pendingByteEvents_bounds (c : Nat) (hc : c ≤ 255) :
    (incrementPendingByteEvents c = none ↔ c = 255) ∧
    (∀ c2, incrementPendingByteEvents c = some c2 → c2 ≤ 255 ∧ c2 = c + 1) ∧
    (decrementPendingByteEvents c = none ↔ c = 0) ∧
    (∀ c2, decrementPendingByteEvents c = some c2 → c2 + 1 = c) := by
  refine ⟨?_, ?_, ?_, ?_⟩
  · unfold incrementPendingByteEvents
    constructor
    · intro h
      by_contra hne
      have : c < 255 := lt_of_le_of_ne hc hne
      simp [this] at h
    · intro h; simp [h]
  · intro c2 h
    unfold incrementPendingByteEvents at h
    by_cases hlt : c < 255
    · simp [hlt] at h
      omega
    · simp [hlt] at h
  · unfold decrementPendingByteEvents
    constructor
    · intro h
      by_contra hne
      have : 0 < c := Nat.pos_of_ne_zero hne
      simp [this] at h
    · intro h; simp [h]
  · intro c2 h
    unfold decrementPendingByteEvents at h
    by_cases hpos : 0 < c
    · simp [hpos] at h
      omega
    · simp [hpos] at h

/-- Witness for C9 at the concrete counter value 3 (within the uint8_t
range). -/
theorem pendingByteEvents_bounds_witness :
    (3 : Nat) ≤ 255 ∧ incrementPendingByteEvents 3 = some 4 ∧
    decrementPendingByteEvents 3 = some 2 := by
  refine ⟨by decide, ?_, ?_⟩
  · have h := (pendingByteEvents_bounds 3 (by decide)).1
    decide
  · decide

/-- HTTPTransaction::getPrioritySummary: the triple (insertDepth_,
currentDepth_, average weight ratio), where the average is
cumulativeRatio_ / egressCalls_ guarded by egressCalls_ > 0 and 0
otherwise.  The C++ doubles are modelled as rationals. -/
def getPrioritySummary (insertDepth currentDepth : Nat)
    (cumulativeRatio : ℚ) (egressCalls : Nat) : Nat × Nat × ℚ :=
  (insertDepth, currentDepth,
    if 0 < egressCalls then cumulativeRatio / (egressCalls : ℚ) else 0)

/-- Claim C10: getPrioritySummary is total and never divides by zero: with
zero egress calls the ratio component is 0, otherwise it is
cumulativeRatio_ / egressCalls_. -/
theorem getPrioritySummary_no_div_by_zero (insertDepth currentDepth : Nat)
    (cumulativeRatio : ℚ) (egressCalls : Nat) :
    (egressCalls = 0 →
      (getPrioritySummary insertDepth currentDepth cumulativeRatio
        egressCalls).2.2 = 0) ∧
    (0 < egressCalls →
      (getPrioritySummary insertDepth currentDepth cumulativeRatio
        egressCalls).2.2 = cumulativeRatio / (egressCalls : ℚ)) ∧
    (getPrioritySummary insertDepth currentDepth cumulativeRatio
        egressCalls).1 = insertDepth ∧
    (getPrioritySummary insertDepth currentDepth cumulativeRatio
        egressCalls).2.1 = currentDepth := by
  refine ⟨?_, ?_, rfl, rfl⟩
  · intro h
    simp [getPrioritySummary, h]
  · intro h
    simp [getPrioritySummary, h]

/-- Witness for C10 at concrete inputs: zero egress calls give ratio 0,
two egress calls with cumulative ratio 3 give 3/2. -/
theorem getPrioritySummary_witness :
    (getPrioritySummary 1 2 3 0).2.2 = 0 ∧
    (getPrioritySummary 1 2 3 2).2.2 = 3 / 2 := by
  constructor
  · exact (getPrioritySummary_no_div_by_zero 1 2 3 0).1 rfl
  · have h := (getPrioritySummary_no_div_by_zero 1 2 3 2).2.1 (by decide)
    rw [h]
    norm_num

/-- HTTPTransactionEgressSM::State (HTTPTransactionEgressSM.h, spec
section 4.1). -/
inductive EgressState
  | Start
  | HeadersSent
  | ChunkHeaderSent
  | ChunkBodySent
  | ChunkTerminatorSent
  | TrailersSent
  | RegularBodySent
  | EOMQueued
  | SendingDone
deriving DecidableEq, Repr

/-- HTTPTransactionEgressSM::Event (spec section 4.1). -/
inductive EgressEvent
  | sendHeaders
  | sendBody
  | sendChunkHeader
  | sendChunkTerminator
  | sendTrailers
  | sendEOM
  | eomFlushed
deriving DecidableEq, Repr

/-- Modelled from the spec: the egress state-machine transition table
(HTTPTransactionEgressSM is absent from the sources here).  Spec section
4.1: the transitions mirror the wire grammar — headers once; optional
repeatable chunk group sendChunkHeader -> sendBody -> sendChunkTerminator;
optional single sendTrailers; terminal sendEOM into EOMQueued; eomFlushed
into SendingDone.  Unlisted pairs are rejected. -/
def egressTableEntry : EgressState → EgressEvent → Option EgressState
  | .Start, .sendHeaders => some .HeadersSent
  | .HeadersSent, .sendBody => some .RegularBodySent
  | .HeadersSent, .sendChunkHeader => some .ChunkHeaderSent
  | .HeadersSent, .sendTrailers => some .TrailersSent
  | .HeadersSent, .sendEOM => some .EOMQueued
  | .RegularBodySent, .sendBody => some .RegularBodySent
  | .RegularBodySent, .sendTrailers => some .TrailersSent
  | .RegularBodySent, .sendEOM => some .EOMQueued
  | .ChunkHeaderSent, .sendBody => some .ChunkBodySent
  | .ChunkBodySent, .sendBody => some .ChunkBodySent
  | .ChunkBodySent, .sendChunkTerminator => some .ChunkTerminatorSent
  | .ChunkTerminatorSent, .sendChunkHeader => some .ChunkHeaderSent
  | .ChunkTerminatorSent, .sendTrailers => some .TrailersSent
  | .ChunkTerminatorSent, .sendEOM => some .EOMQueued
  | .TrailersSent, .sendEOM => some .EOMQueued
  | .EOMQueued, .eomFlushed => some .SendingDone
  | _, _ => none

/-- StateMachine::canTransit for the egress machine: the pair is listed in
the table. -/
def egressCanTransit (s : EgressState) (e : EgressEvent) : Bool :=
  (egressTableEntry s e).isSome

/-- HTTPTransaction::extraResponseExpected: the last recorded response
status is an interim 1xx other than 101 (101 is handled by the codec with
a separate onUpgrade callback). -/
def extraResponseExpected (lastResponseStatus : Nat) : Bool :=
  (100 ≤ lastResponseStatus && lastResponseStatus < 200) &&
    lastResponseStatus != 101

/-- HTTPTransaction::isUpstream. -/
def isUpstreamDir (direction : TransportDirection) : Bool :=
  direction == TransportDirection.UPSTREAM

/-- HTTPTransaction::canSendHeaders: the egress state machine admits
sendHeaders, and the transaction is upstream, or no response status has
been recorded, or an extra (interim) response is still expected. -/
def canSendHeaders (egressState : EgressState)
    (direction : TransportDirection) (lastResponseStatus : Nat) : Bool :=
  egressCanTransit egressState .sendHeaders &&
  (isUpstreamDir direction || lastResponseStatus == 0 ||
    extraResponseExpected lastResponseStatus)

/-- A status is an interim response: a 1xx other than 101. -/
def isInterimStatus (s : Nat) : Prop :=
  100 ≤ s ∧ s < 200 ∧ s ≠ 101

/-- Modelled from the spec: the life of `lastResponseStatus_` on a
downstream transaction (the recording itself happens in
sendHeadersWithOptionalEOM in the absent HTTPTransaction.cpp; spec
sections 3 and 4.6: the field holds the last 1xx or final status sent,
and each send is gated by canSendHeaders).  `DownstreamStatusTrace last
recorded` holds when `recorded` is a possible sequence of statuses sent on
a downstream transaction whose current lastResponseStatus is `last`:
starting from 0, each newly recorded status (a real HTTP status, at least
100) requires canSendHeaders to hold, in the then-current egress state,
for the previous value. -/
inductive DownstreamStatusTrace : Nat → List Nat → Prop
  | start : DownstreamStatusTrace 0 []
  | record (last : Nat) (recorded : List Nat) (s : Nat) (es : EgressState) :
      DownstreamStatusTrace last recorded →
      100 ≤ s →
      canSendHeaders es TransportDirection.DOWNSTREAM last = true →
      DownstreamStatusTrace s (recorded ++ [s])

/-- canSendHeaders on a downstream transaction forces the previous status
to be zero or interim. -/
theorem canSendHeaders_downstream_gate (es : EgressState) (last : Nat)
    (h : canSendHeaders es TransportDirection.DOWNSTREAM last = true) :
    last = 0 ∨ isInterimStatus last := by
  unfold canSendHeaders isUpstreamDir extraResponseExpected at h
  simp at h
  rcases h.2 with h0 | hint
  · exact Or.inl h0
  · exact Or.inr ⟨hint.1.1, hint.1.2, hint.2⟩

/-- Shape of a downstream status trace: either nothing was recorded and
the status is still 0, or the trace ends in the current status, every
status is a real one (at least 100), and every status before the current
one is interim. -/
theorem downstreamStatusTrace_shape (last : Nat) (recorded : List Nat)
    (h : DownstreamStatusTrace last recorded) :
    (recorded = [] ∧ last = 0) ∨
    (∃ ys, recorded = ys ++ [last] ∧ 100 ≤ last ∧
      ∀ x ∈ ys, isInterimStatus x) := by
  induction h with
  | start => exact Or.inl ⟨rfl, rfl⟩
  | record last recorded s es htr h100 hgate ih =>
    right
    refine ⟨recorded, rfl, h100, ?_⟩
    intro x hx
    rcases ih with ⟨hnil, _⟩ | ⟨ys, hys, hlast100, hint⟩
    · subst hnil
      simp at hx
    · have hlastInt : isInterimStatus last := by
        rcases canSendHeaders_downstream_gate es last hgate with h0 | hint2
        · omega
        · exact hint2
      subst hys
      rcases List.mem_append.mp hx with hx | hx
      · exact hint x hx
      · simp at hx
        subst hx
        exact hlastInt

/-- Claim C2: canSendHeaders() is the conjunction of the egress
state-machine check for sendHeaders with the direction/status condition
(upstream, or no status recorded yet, or the recorded status is an interim
1xx other than 101); a downstream transaction with a recorded final
(at least 200) status can never send headers again; and on a downstream
transaction the recorded statuses move from zero through interim 1xx
values to at most one final value, which is last. -/
theorem canSendHeaders_characterization :
    (∀ es d last, canSendHeaders es d last = true ↔
      (egressCanTransit es .sendHeaders = true ∧
        (d = TransportDirection.UPSTREAM ∨ last = 0 ∨
          isInterimStatus last))) ∧
    (∀ es last, 200 ≤ last →
      canSendHeaders es TransportDirection.DOWNSTREAM last = false) ∧
    (∀ last recorded, DownstreamStatusTrace last recorded →
      ∀ s ∈ recorded.dropLast, isInterimStatus s) := by
  refine ⟨?_, ?_, ?_⟩
  · intro es d last
    unfold canSendHeaders isUpstreamDir extraResponseExpected
      isInterimStatus
    cases d with
    | UPSTREAM => simp
    | DOWNSTREAM =>
      simp
      omega
  · intro es last h200
    by_contra hne
    have htrue : canSendHeaders es TransportDirection.DOWNSTREAM last =
        true := by
      cases h : canSendHeaders es TransportDirection.DOWNSTREAM last
      · exact absurd h hne
      · rfl
    rcases canSendHeaders_downstream_gate es last htrue with h0 | hint
    · omega
    · rcases hint with ⟨_, hlt, _⟩
      omega
  · intro last recorded htr s hs
    rcases downstreamStatusTrace_shape last recorded htr with
      ⟨hnil, _⟩ | ⟨ys, hys, _, hint⟩
    · subst hnil
      simp at hs
    · subst hys
      rw [List.dropLast_concat] at hs
      exact hint s hs

/-- Witness for C2 at concrete inputs: in the Start egress state a
downstream transaction with no recorded status may send headers, with a
recorded 100 it may send again, and with a recorded 200 it may not. -/
theorem canSendHeaders_witness :
    canSendHeaders EgressState.Start TransportDirection.DOWNSTREAM 0 =
      true ∧
    canSendHeaders EgressState.Start TransportDirection.DOWNSTREAM 100 =
      true ∧
    canSendHeaders EgressState.Start TransportDirection.DOWNSTREAM 200 =
      false := by
  refine ⟨?_, ?_, ?_⟩
  · exact (canSendHeaders_characterization.1 EgressState.Start
      TransportDirection.DOWNSTREAM 0).mpr ⟨by decide, Or.inr (Or.inl rfl)⟩
  · decide
  · exact canSendHeaders_characterization.2.1 EgressState.Start 200
      (by decide)

/-- HTTPHeaders, modelled as an association list of name/value pairs. -/
abbrev HTTPHeaders := List (String × String)

/-- The egress-side fragment of HTTPTransaction used by sendChunkHeader,
sendChunkTerminator, sendTrailers and newPushedTransaction. -/
structure Txn where
  direction : TransportDirection
  id : Nat
  egressState : EgressState
  partiallyReliable : Bool
  chunkHeaders : List Nat
  trailers : Option HTTPHeaders
  codecSupportsParallelRequests : Bool
  codecSupportsPushTransactions : Bool
  pushedTransactions : Finset Nat

/-- A fatal CHECK failure inside an HTTPTransaction member (LOG(FATAL)
aborts the process; nothing further is performed). -/
inductive CheckFailure
  | smTransitFailed
  | partiallyReliableCheckFailed
deriving DecidableEq, Repr

/-- HTTPTransaction::isEgressEOMSeen: sendEOM() has been called (the
egress machine is in EOMQueued or SendingDone). -/
def isEgressEOMSeen (t : Txn) : Bool :=
  t.egressState == EgressState.EOMQueued ||
  t.egressState == EgressState.SendingDone

/-- HTTPTransaction::supportsPushTransactions: downstream and the codec
supports push. -/
def supportsPushTransactions (t : Txn) : Bool :=
  t.direction == TransportDirection.DOWNSTREAM &&
  t.codecSupportsPushTransactions

/-- HTTPTransaction::sendChunkHeader: CHECK the egress transit for
sendChunkHeader, CHECK that the transaction is not partially reliable,
then record the chunk length when the codec is not multiplexing. -/
def sendChunkHeader (t : Txn) (length : Nat) : Except CheckFailure Txn :=
  match egressTableEntry t.egressState .sendChunkHeader with
  | none => .error .smTransitFailed
  | some s2 =>
    if t.partiallyReliable then .error .partiallyReliableCheckFailed
    else
      let t2 := { t with egressState := s2 }
      .ok (if t.codecSupportsParallelRequests then t2
           else { t2 with chunkHeaders := t2.chunkHeaders ++ [length] })

/-- HTTPTransaction::sendChunkTerminator: CHECK the egress transit for
sendChunkTerminator and CHECK that the transaction is not partially
reliable. -/
def sendChunkTerminator (t : Txn) : Except CheckFailure Txn :=
  match egressTableEntry t.egressState .sendChunkTerminator with
  | none => .error .smTransitFailed
  | some s2 =>
    if t.partiallyReliable then .error .partiallyReliableCheckFailed
    else .ok { t with egressState := s2 }

/-- HTTPTransaction::sendTrailers: CHECK the egress transit for
sendTrailers, CHECK that the transaction is not partially reliable, then
store the trailers until the EOM flush. -/
def sendTrailers (t : Txn) (tr : HTTPHeaders) : Except CheckFailure Txn :=
  match egressTableEntry t.egressState .sendTrailers with
  | none => .error .smTransitFailed
  | some s2 =>
    if t.partiallyReliable then .error .partiallyReliableCheckFailed
    else .ok { t with egressState := s2, trailers := some tr }

/-- A reference to a freshly created pushed transaction. -/
structure PushedTxnRef where
  id : Nat
  assocStreamId : Nat
deriving DecidableEq, Repr

/-- Modelled from the spec: Transport::newPushedTransaction (implemented
by the session, absent from the sources here).  Spec sections 3 and 4.6:
pushing is only legal on a downstream transaction whose codec supports
push, and the new transaction's associated stream id is the id passed by
the caller; the session may refuse for its own resource reasons, modelled
by the `avail` argument (the id it would assign, when it is willing). -/
def transportNewPushedTransaction (direction : TransportDirection)
    (codecSupportsPush : Bool) (avail : Option Nat) (assocStreamId : Nat) :
    Option PushedTxnRef :=
  if direction == TransportDirection.DOWNSTREAM && codecSupportsPush then
    avail.map (fun newId => ⟨newId, assocStreamId⟩)
  else
    none

/-- HTTPTransaction::newPushedTransaction: CHECK that the transaction is
not partially reliable; return null if egress EOM was already seen;
otherwise ask the transport for a pushed transaction bound to this id and
record the new id in pushedTransactions_. -/
def newPushedTransaction (t : Txn) (avail : Option Nat) :
    Except CheckFailure (Option PushedTxnRef × Txn) :=
  if t.partiallyReliable then .error .partiallyReliableCheckFailed
  else if isEgressEOMSeen t then .ok (none, t)
  else
    match transportNewPushedTransaction t.direction
        t.codecSupportsPushTransactions avail t.id with
    | some txn =>
      .ok (some txn,
        { t with pushedTransactions := insert txn.id t.pushedTransactions })
    | none => .ok (none, t)

/-- Claim C3: newPushedTransaction succeeds only when the transaction is
downstream (with a push-capable codec), egress EOM has not been seen, and
partial reliability is off; whenever egress EOM has been seen (and the
partial-reliability CHECK passes) it returns null and leaves
pushedTransactions_ unchanged; and a returned transaction carries this
transaction's id as its associated stream id and has its own id inserted
into pushedTransactions_. -/
theorem newPushedTransaction_contract (t : Txn) (avail : Option Nat) :
    (t.partiallyReliable = false → isEgressEOMSeen t = true →
      newPushedTransaction t avail = .ok (none, t)) ∧
    (∀ txn t2, newPushedTransaction t avail = .ok (some txn, t2) →
      t.direction = TransportDirection.DOWNSTREAM ∧
      supportsPushTransactions t = true ∧
      t.partiallyReliable = false ∧
      isEgressEOMSeen t = false ∧
      txn.assocStreamId = t.id ∧
      t2.pushedTransactions = insert txn.id t.pushedTransactions) := by
  constructor
  · intro hpr heom
    unfold newPushedTransaction
    rw [hpr, heom]
    simp
  · intro txn t2 h
    unfold newPushedTransaction at h
    by_cases hpr : t.partiallyReliable
    · simp [hpr] at h
    · simp [hpr] at h
      by_cases heom : isEgressEOMSeen t
      · simp [heom] at h
      · simp [heom] at h
        unfold transportNewPushedTransaction at h
        by_cases hdir : (t.direction == TransportDirection.DOWNSTREAM &&
            t.codecSupportsPushTransactions) = true
        · rw [if_pos hdir] at h
          cases avail with
          | none => simp at h
          | some newId =>
            simp at h
            simp at hdir
            refine ⟨hdir.1, ?_, by simpa using hpr, by simpa using heom,
              ?_, ?_⟩
            · unfold supportsPushTransactions
              simp [hdir.1, hdir.2]
            · rw [← h.1]
            · rw [← h.2, ← h.1]
        · rw [if_neg hdir] at h
          simp at h

/-- Witness for C3: a concrete downstream push-capable transaction that
has already queued its egress EOM gets null and an unchanged set. -/
theorem newPushedTransaction_witness :
    newPushedTransaction
      ⟨TransportDirection.DOWNSTREAM, 5, EgressState.EOMQueued, false, [],
        none, false, true, ∅⟩ (some 8) =
    .ok (none,
      ⟨TransportDirection.DOWNSTREAM, 5, EgressState.EOMQueued, false, [],
        none, false, true, ∅⟩) := by
  exact (newPushedTransaction_contract
    ⟨TransportDirection.DOWNSTREAM, 5, EgressState.EOMQueued, false, [],
      none, false, true, ∅⟩ (some 8)).1 rfl rfl

/-- Claim C4: on a partially reliable transaction every attempt to use
chunking (sendChunkHeader, sendChunkTerminator), trailers (sendTrailers)
or server push (newPushedTransaction) fails its CHECK: each operation is
refused with an error and no state is produced. -/
theorem partiallyReliable_excludes_chunking_trailers_push (t : Txn)
    (length : Nat) (tr : HTTPHeaders) (avail : Option Nat)
    (hpr : t.partiallyReliable = true) :
    (∃ e, sendChunkHeader t length = .error e) ∧
    (∃ e, sendChunkTerminator t = .error e) ∧
    (∃ e, sendTrailers t tr = .error e) ∧
    newPushedTransaction t avail =
      .error .partiallyReliableCheckFailed := by
  refine ⟨?_, ?_, ?_, ?_⟩
  · unfold sendChunkHeader
    cases h : egressTableEntry t.egressState .sendChunkHeader with
    | none => exact ⟨.smTransitFailed, rfl⟩
    | some s2 => exact ⟨.partiallyReliableCheckFailed, by simp [hpr]⟩
  · unfold sendChunkTerminator
    cases h : egressTableEntry t.egressState .sendChunkTerminator with
    | none => exact ⟨.smTransitFailed, rfl⟩
    | some s2 => exact ⟨.partiallyReliableCheckFailed, by simp [hpr]⟩
  · unfold sendTrailers
    cases h : egressTableEntry t.egressState .sendTrailers with
    | none => exact ⟨.smTransitFailed, rfl⟩
    | some s2 => exact ⟨.partiallyReliableCheckFailed, by simp [hpr]⟩
  · unfold newPushedTransaction
    rw [hpr]
    simp

/-- Witness for C4 at a concrete partially reliable transaction in the
HeadersSent state (where each of the operations would otherwise be
admitted by the state machine). -/
theorem partiallyReliable_excludes_witness :
    sendChunkHeader
      ⟨TransportDirection.DOWNSTREAM, 5, EgressState.HeadersSent, true, [],
        none, false, true, ∅⟩ 4 =
      .error .partiallyReliableCheckFailed ∧
    newPushedTransaction
      ⟨TransportDirection.DOWNSTREAM, 5, EgressState.HeadersSent, true, [],
        none, false, true, ∅⟩ (some 8) =
      .error .partiallyReliableCheckFailed := by
  constructor
  · rfl
  · exact (partiallyReliable_excludes_chunking_trailers_push
      ⟨TransportDirection.DOWNSTREAM, 5, EgressState.HeadersSent, true, [],
        none, false, true, ∅⟩ 4 [] (some 8) rfl).2.2.2

/-- The two egress back-pressure callbacks delivered to the handler. -/
inductive PauseEvent
  | paused
  | resumed
deriving DecidableEq, Repr

/-- The handler-facing pause state: the handlerEgressPaused_ flag and the
ordered trace of onEgressPaused/onEgressResumed callbacks delivered so
far. -/
structure HandlerPauseState where
  handlerEgressPaused : Bool
  trace : List PauseEvent
deriving DecidableEq, Repr

/-- Modelled from the spec: HTTPTransaction::updateHandlerPauseState
(declared in HTTPTransaction.h with the contract "Invokes the handler's
onEgressPaused/Resumed if the handler's pause state needs updating"; the
body is in the absent HTTPTransaction.cpp).  The transition is
level-triggered and debounced (spec section 4.6): given the effective
"handler should pause" bit, the callback fires only when the bit differs
from handlerEgressPaused_. -/
def updateHandlerPauseState (st : HandlerPauseState) (shouldPause : Bool) :
    HandlerPauseState :=
  if shouldPause && !st.handlerEgressPaused then
    { handlerEgressPaused := true, trace := st.trace ++ [.paused] }
  else if !shouldPause && st.handlerEgressPaused then
    { handlerEgressPaused := false, trace := st.trace ++ [.resumed] }
  else
    st

/-- Running a whole sequence of "handler should pause" evaluations from
the initial state (handler not paused, no callbacks delivered). -/
def runPauseUpdates (inputs : List Bool) : HandlerPauseState :=
  inputs.foldl updateHandlerPauseState ⟨false, []⟩

/-- The traces producible by the debounced pause/resume logic: paused and
resumed alternate starting with paused, and the boolean records whether
the trace ends in an unmatched paused. -/
inductive AltTrace : List PauseEvent → Bool → Prop
  | nil : AltTrace [] false
  | pause (tr : List PauseEvent) :
      AltTrace tr false → AltTrace (tr ++ [.paused]) true
  | resume (tr : List PauseEvent) :
      AltTrace tr true → AltTrace (tr ++ [.resumed]) false

/-- One update step preserves the AltTrace invariant. -/
theorem altTrace_step (st : HandlerPauseState) (b : Bool)
    (h : AltTrace st.trace st.handlerEgressPaused) :
    AltTrace (updateHandlerPauseState st b).trace
      (updateHandlerPauseState st b).handlerEgressPaused := by
  unfold updateHandlerPauseState
  cases b <;> cases hp : st.handlerEgressPaused <;> simp [hp]
  · exact hp ▸ h
  · exact AltTrace.resume st.trace (hp ▸ h)
  · exact AltTrace.pause st.trace (hp ▸ h)
  · exact hp ▸ h

/-- Every state reached by a run satisfies the AltTrace invariant. -/
theorem altTrace_run (inputs : List Bool) :
    AltTrace (runPauseUpdates inputs).trace
      (runPauseUpdates inputs).handlerEgressPaused := by
  unfold runPauseUpdates
  have hgen : ∀ (st : HandlerPauseState),
      AltTrace st.trace st.handlerEgressPaused →
      AltTrace (inputs.foldl updateHandlerPauseState st).trace
        (inputs.foldl updateHandlerPauseState st).handlerEgressPaused := by
    induction inputs with
    | nil => intro st h; exact h
    | cons b rest ih =>
      intro st h
      exact ih (updateHandlerPauseState st b) (altTrace_step st b h)
  exact hgen ⟨false, []⟩ AltTrace.nil

/-- The opposite pause event. -/
def flipEvent : PauseEvent → PauseEvent
  | .paused => .resumed
  | .resumed => .paused

/-- Checking strict alternation from an expected next event; returns the
event expected after the trace when the trace alternates, none
otherwise. -/
def altCheck : PauseEvent → List PauseEvent → Option PauseEvent
  | e, [] => some e
  | e, x :: xs => if x = e then altCheck (flipEvent e) xs else none

/-- Appending the expected event extends an alternating trace. -/
theorem altCheck_append (tr : List PauseEvent) (e x : PauseEvent)
    (h : altCheck e tr = some x) :
    altCheck e (tr ++ [x]) = some (flipEvent x) := by
  induction tr generalizing e with
  | nil =>
    unfold altCheck at h
    cases h
    cases x <;> simp [altCheck]
  | cons y ys ih =>
    rw [List.cons_append]
    simp only [altCheck] at h ⊢
    by_cases hy : y = e
    · rw [if_pos hy] at h ⊢
      exact ih _ h
    · rw [if_neg hy] at h
      cases h

/-- An AltTrace alternates starting from paused, and the expected next
event is determined by the ending flag. -/
theorem altTrace_altCheck (tr : List PauseEvent) (f : Bool)
    (h : AltTrace tr f) :
    altCheck .paused tr =
      some (if f then .resumed else .paused) := by
  induction h with
  | nil => simp [altCheck]
  | pause tr2 _ ih =>
    simp at ih
    have := altCheck_append tr2 .paused .paused ih
    simpa using this
  | resume tr2 _ ih =>
    simp at ih
    have := altCheck_append tr2 .paused .resumed ih
    simpa using this

/-- Counts in an AltTrace: paused leads resumed by exactly the ending
flag. -/
theorem altTrace_counts (tr : List PauseEvent) (f : Bool)
    (h : AltTrace tr f) :
    tr.count .paused = tr.count .resumed + (if f then 1 else 0) := by
  induction h with
  | nil => simp
  | pause tr2 _ ih =>
    simp [List.count_append] at ih ⊢
    omega
  | resume tr2 _ ih =>
    simp [List.count_append] at ih ⊢
    omega

/-- Claim C7: for every run, the sequence of onEgressPaused and
onEgressResumed callbacks strictly alternates beginning with
onEgressPaused, the two counts differ by at most one, and no
onEgressResumed is delivered without a prior onEgressPaused. -/
theorem handler_pause_resume_alternation (inputs : List Bool) :
    (altCheck .paused (runPauseUpdates inputs).trace).isSome = true ∧
    (runPauseUpdates inputs).trace.count .resumed ≤
      (runPauseUpdates inputs).trace.count .paused ∧
    (runPauseUpdates inputs).trace.count .paused ≤
      (runPauseUpdates inputs).trace.count .resumed + 1 ∧
    ((runPauseUpdates inputs).trace ≠ [] →
      (runPauseUpdates inputs).trace.head? = some .paused) := by
  have hinv := altTrace_run inputs
  have hchk := altTrace_altCheck _ _ hinv
  have hcnt := altTrace_counts _ _ hinv
  have hcounts : (runPauseUpdates inputs).trace.count .resumed ≤
      (runPauseUpdates inputs).trace.count .paused ∧
      (runPauseUpdates inputs).trace.count .paused ≤
      (runPauseUpdates inputs).trace.count .resumed + 1 := by
    cases hflag : (runPauseUpdates inputs).handlerEgressPaused
    · rw [hflag] at hcnt
      simp at hcnt
      omega
    · rw [hflag] at hcnt
      simp at hcnt
      omega
  refine ⟨?_, hcounts.1, hcounts.2, ?_⟩
  · rw [hchk]
    rfl
  · intro hne
    cases htr : (runPauseUpdates inputs).trace with
    | nil => exact absurd htr hne
    | cons y ys =>
      rw [htr] at hchk
      unfold altCheck at hchk
      by_cases hy : y = PauseEvent.paused
      · rw [hy]
        rfl
      · rw [if_neg hy] at hchk
        cases hchk

/-- Witness for C7 on a concrete run: pause pressure, then more pause
pressure (debounced), then release gives exactly [paused, resumed]. -/
theorem handler_pause_resume_witness :
    runPauseUpdates [true, true, false] =
      ⟨false, [.paused, .resumed]⟩ ∧
    ((runPauseUpdates [true, true, false]).trace ≠ [] →
      (runPauseUpdates [true, true, false]).trace.head? = some .paused) := by
  constructor
  · rfl
  · exact (handler_pause_resume_alternation [true, true, false]).2.2.2

/-- The ingress-control fragment of HTTPTransaction: the ingressPaused_
flag, the deferred ingress queue, the ingress SM state with the abort
trace, and the ordered trace of ingress callbacks delivered to the
handler.  Transport notifications (Transport::pauseIngress /
resumeIngress) are not handler-observable and are not part of this
state. -/
structure IngressCtl where
  ingressPaused : Bool
  deferredIngress : List IngressEvent
  txn : IngressTxn
  handlerCalls : List IngressEvent
deriving DecidableEq, Repr

/-- Modelled from the spec: HTTPTransaction::mustQueueIngress (declared
in HTTPTransaction.h, body in the absent HTTPTransaction.cpp; spec
section 4.6 and design notes: a single conditional decides between
enqueue and immediate dispatch — queue when paused or when a predecessor
event is still queued). -/
def mustQueueIngress (st : IngressCtl) : Bool :=
  st.ingressPaused || !st.deferredIngress.isEmpty

/-- Modelled from the spec: the common shape of the onIngress* entry
points (spec section 4.6): validate the SM transition; on acceptance
either enqueue the event (when the handler has paused reception or a
predecessor is queued) or deliver the matching handler callback; on
rejection the abort is recorded by validateIngressStateTransition and
nothing is queued or delivered. -/
def onIngressEvent (st : IngressCtl) (e : IngressEvent) : IngressCtl :=
  let r := validateIngressStateTransition st.txn e
  if r.1 then
    let st2 := { st with txn := r.2 }
    if mustQueueIngress st2 then
      { st2 with deferredIngress := st2.deferredIngress ++ [e] }
    else
      { st2 with handlerCalls := st2.handlerCalls ++ [e] }
  else
    { st with txn := r.2 }

/-- Modelled from the spec: HTTPTransaction::pauseIngress (body in the
absent HTTPTransaction.cpp; spec section 4.6): a no-op when already
paused, otherwise sets ingressPaused_ and notifies the transport (the
notification is not handler-observable). -/
def pauseIngress (st : IngressCtl) : IngressCtl :=
  if st.ingressPaused then st else { st with ingressPaused := true }

/-- Draining the deferred ingress queue: every queued event is delivered
to the handler in FIFO order (spec section 4.3). -/
def drainDeferred (st : IngressCtl) : IngressCtl :=
  { st with deferredIngress := [],
            handlerCalls := st.handlerCalls ++ st.deferredIngress }

/-- Modelled from the spec: HTTPTransaction::resumeIngress (body in the
absent HTTPTransaction.cpp; spec sections 4.3 and 4.6): a no-op when not
paused, otherwise clears ingressPaused_, notifies the transport, and
drains the deferred queue to the handler in FIFO order. -/
def resumeIngress (st : IngressCtl) : IngressCtl :=
  if st.ingressPaused then drainDeferred { st with ingressPaused := false }
  else st

/-- The operations driving the ingress-control state. -/
inductive IngressOp
  | ingress (e : IngressEvent)
  | pause
  | resume
deriving DecidableEq, Repr

def applyIngressOp (st : IngressCtl) : IngressOp → IngressCtl
  | .ingress e => onIngressEvent st e
  | .pause => pauseIngress st
  | .resume => resumeIngress st

/-- The state of a freshly created transaction: unpaused, no deferred
events, ingress machine at Start, no callbacks delivered. -/
def initialIngressCtl : IngressCtl :=
  ⟨false, [], ⟨.Start, []⟩, []⟩

def runIngressOps (ops : List IngressOp) : IngressCtl :=
  ops.foldl applyIngressOp initialIngressCtl

/-- The deferred queue is empty whenever the transaction is not paused
(events are queued only while paused, and resuming drains the queue). -/
theorem applyIngressOp_deferred_empty (st : IngressCtl) (op : IngressOp)
    (h : st.ingressPaused = false → st.deferredIngress = []) :
    (applyIngressOp st op).ingressPaused = false →
    (applyIngressOp st op).deferredIngress = [] := by
  cases op with
  | ingress e =>
    intro hp
    simp only [applyIngressOp] at hp ⊢
    unfold onIngressEvent at hp ⊢
    by_cases hv : (validateIngressStateTransition st.txn e).1 = true
    · rw [if_pos hv] at hp ⊢
      by_cases hq :
          mustQueueIngress { st with
            txn := (validateIngressStateTransition st.txn e).2 } = true
      · rw [if_pos hq] at hp ⊢
        simp at hp
        unfold mustQueueIngress at hq
        simp at hq
        rcases hq with hq | hq
        · rw [hp] at hq
          cases hq
        · rw [h hp] at hq
          simp at hq
      · rw [if_neg hq] at hp ⊢
        simp at hp ⊢
        exact h hp
    · rw [if_neg hv] at hp ⊢
      simp at hp ⊢
      exact h hp
  | pause =>
    intro hp
    simp only [applyIngressOp] at hp ⊢
    unfold pauseIngress at hp ⊢
    by_cases hb : st.ingressPaused = true
    · rw [if_pos hb] at hp ⊢
      exact h hp
    · simp at hb
      rw [if_neg (by rw [hb]; exact Bool.false_ne_true)] at hp ⊢
      exact h hb
  | resume =>
    intro hp
    simp only [applyIngressOp] at hp ⊢
    unfold resumeIngress at hp ⊢
    by_cases hb : st.ingressPaused = true
    · rw [if_pos hb] at hp ⊢
      unfold drainDeferred
      rfl
    · rw [if_neg hb] at hp ⊢
      exact h hp

/-- Every reachable ingress-control state has an empty deferred queue
while unpaused. -/
theorem runIngressOps_deferred_empty (ops : List IngressOp) :
    (runIngressOps ops).ingressPaused = false →
    (runIngressOps ops).deferredIngress = [] := by
  unfold runIngressOps
  have hgen : ∀ st : IngressCtl,
      (st.ingressPaused = false → st.deferredIngress = []) →
      ((ops.foldl applyIngressOp st).ingressPaused = false →
        (ops.foldl applyIngressOp st).deferredIngress = []) := by
    induction ops with
    | nil => intro st h; exact h
    | cons op rest ih =>
      intro st h
      exact ih (applyIngressOp st op)
        (applyIngressOp_deferred_empty st op h)
  exact hgen initialIngressCtl (fun _ => rfl)

/-- Claim C8: from any reachable unpaused state, pauseIngress()
immediately followed by resumeIngress() with no intervening ingress
events returns the transaction to exactly the state it started in: the
handler receives no additional callbacks, and the ingress state and the
deferred-ingress queue are unchanged. -/
theorem pause_resume_noop (ops : List IngressOp)
    (hunpaused : (runIngressOps ops).ingressPaused = false) :
    resumeIngress (pauseIngress (runIngressOps ops)) = runIngressOps ops := by
  have hdef := runIngressOps_deferred_empty ops hunpaused
  cases hst : runIngressOps ops with
  | mk paused deferred txn calls =>
    rw [hst] at hunpaused hdef
    simp at hunpaused hdef
    subst hunpaused
    subst hdef
    unfold pauseIngress resumeIngress drainDeferred
    simp

/-- Witness for C8 at the concrete reachable state after delivering
onHeaders on a fresh transaction: the pause/resume pair leaves the state
untouched. -/
theorem pause_resume_noop_witness :
    (runIngressOps [.ingress .onHeaders]).ingressPaused = false ∧
    resumeIngress (pauseIngress (runIngressOps [.ingress .onHeaders])) =
      runIngressOps [.ingress .onHeaders] := by
  refine ⟨by decide, ?_⟩
  exact pause_resume_noop [.ingress .onHeaders] (by decide)

end Proxygen
